import Mathlib

/-!
Verification of the relative-position bucketing and positional-embedding code
of this repository (deberta_v2 attention and bart embeddings), as a shallow
embedding in Lean 4.

Modelling conventions:
* Rust `i64` values are embedded as `ℤ`; Rust `/` on `i64` (truncation toward
  zero) is `Int.tdiv`; `i64` division by zero is a Rust panic.
* Tensor float arithmetic follows IEEE semantics with finite values idealised
  as exact reals: an `F64` is a finite real, `+inf`, `-inf`, or NaN, and the
  operations propagate non-finite values exactly as IEEE does (`ln 0 = -inf`,
  `ln x = NaN` for `x < 0`, `finite / 0 = ±inf`, `finite / ±inf = ∓0.0`,
  `±inf * 0 = NaN`, ...).  Signed zeros are collapsed to `0`: no operation in
  this pipeline distinguishes them afterwards.  The per-entry result type
  `EntryResult` records the outcome: `panic` (the call aborts on integer
  division by zero), `nonFinite` (a NaN or infinity reached the `Int64` cast,
  whose result is unspecified garbage), or `val z` (an actual integer value).
-/

/-- Per-entry outcome of the bucketing computation. -/
inductive EntryResult where
  | panic : EntryResult
  | nonFinite : EntryResult
  | val : ℤ → EntryResult
deriving DecidableEq

/-- Negation of an entry outcome: negates an integer value, leaves the
failure outcomes unchanged. -/
def EntryResult.neg : EntryResult → EntryResult
  | EntryResult.val z => EntryResult.val (-z)
  | r => r

/-- Whether the outcome is an actual integer value. -/
def EntryResult.isVal : EntryResult → Bool
  | EntryResult.val _ => true
  | _ => false

/-- Magnitude of an integer value outcome (0 on failure outcomes). -/
def EntryResult.absVal : EntryResult → ℤ
  | EntryResult.val z => |z|
  | _ => 0

/-- An IEEE f64 value as this model sees it: a finite value (idealised as an
exact real, rounding abstracted away), an infinity, or NaN.  Signed zeros are
collapsed to `fin 0`; no operation in this pipeline distinguishes them
afterwards. -/
inductive F64 where
  | fin : ℝ → F64
  | posInf : F64
  | negInf : F64
  | nan : F64

/-- `f64::ln` of an exactly-known argument: finite `log x` for `x > 0`,
`-inf` at zero (of either sign), NaN for negative arguments. -/
noncomputable def f64_ln (x : ℝ) : F64 :=
  if 0 < x then F64.fin (Real.log x)
  else if x = 0 then F64.negInf
  else F64.nan

/-- IEEE f64 division.  `finite / 0 = ±inf` by the numerator's sign
(`0 / 0 = NaN`); `finite / ±inf = ∓0.0`, collapsed to `fin 0`;
`±inf / finite` keeps the infinity with the quotient's sign;
`inf / inf = NaN`; NaN propagates. -/
noncomputable def F64.div : F64 → F64 → F64
  | F64.fin a, F64.fin b =>
    if b ≠ 0 then F64.fin (a / b)
    else if 0 < a then F64.posInf
    else if a < 0 then F64.negInf
    else F64.nan
  | F64.fin _, F64.posInf => F64.fin 0
  | F64.fin _, F64.negInf => F64.fin 0
  | F64.fin _, F64.nan => F64.nan
  | F64.posInf, F64.fin b => if 0 ≤ b then F64.posInf else F64.negInf
  | F64.posInf, F64.posInf => F64.nan
  | F64.posInf, F64.negInf => F64.nan
  | F64.posInf, F64.nan => F64.nan
  | F64.negInf, F64.fin b => if 0 ≤ b then F64.negInf else F64.posInf
  | F64.negInf, F64.posInf => F64.nan
  | F64.negInf, F64.negInf => F64.nan
  | F64.negInf, F64.nan => F64.nan
  | F64.nan, _ => F64.nan

/-- IEEE multiplication by an `i64` scalar (converted exactly):
`±inf * 0 = NaN`, otherwise an infinity keeps the product's sign;
NaN propagates. -/
noncomputable def F64.mulInt : F64 → ℤ → F64
  | F64.fin a, c => F64.fin (a * (c : ℝ))
  | F64.posInf, c => if 0 < c then F64.posInf else if c < 0 then F64.negInf else F64.nan
  | F64.negInf, c => if 0 < c then F64.negInf else if c < 0 then F64.posInf else F64.nan
  | F64.nan, _ => F64.nan

/-- IEEE addition of an `i64` scalar: infinities and NaN are fixed. -/
noncomputable def F64.addInt : F64 → ℤ → F64
  | F64.fin a, c => F64.fin (a + (c : ℝ))
  | F64.posInf, _ => F64.posInf
  | F64.negInf, _ => F64.negInf
  | F64.nan, _ => F64.nan

/-- `f64::ceil`: exact on finite values; infinities and NaN are fixed. -/
noncomputable def F64.ceilF : F64 → F64
  | F64.fin a => F64.fin ((⌈a⌉ : ℤ) : ℝ)
  | F64.posInf => F64.posInf
  | F64.negInf => F64.negInf
  | F64.nan => F64.nan

/-- Rust/PyTorch float-to-integer truncation toward zero. -/
noncomputable def rust_trunc (a : ℝ) : ℤ :=
  if 0 ≤ a then ⌊a⌋ else ⌈a⌉

/-- `to_kind(Int64)` on one element: finite values truncate toward zero; a
non-finite value reaching the cast has an unspecified garbage result. -/
noncomputable def f64_to_int64 : F64 → EntryResult
  | F64.fin a => EntryResult.val (rust_trunc a)
  | F64.posInf => EntryResult.nonFinite
  | F64.negInf => EntryResult.nonFinite
  | F64.nan => EntryResult.nonFinite

/-- `let mid = bucket_size / 2;` of `make_log_bucket_position`
(Rust `i64` division truncates toward zero). -/
def mlbp_mid (bucket_size : ℤ) : ℤ := Int.tdiv bucket_size 2

/-- `abs_pos` of `make_log_bucket_position`: `relative_pos.abs()` where the
position is outside the open interval `(-mid, mid)`, and the placeholder
`mid - 1` inside it. -/
def mlbp_abs_pos (relative_pos bucket_size : ℤ) : ℤ :=
  if -mlbp_mid bucket_size < relative_pos ∧ relative_pos < mlbp_mid bucket_size
  then mlbp_mid bucket_size - 1
  else |relative_pos|

/-- The scalar `(max_position - 1) / mid` of `make_log_bucket_position`:
Rust `i64` truncating division (well-defined only when `mid ≠ 0`). -/
def mlbp_den_arg (bucket_size max_position : ℤ) : ℤ :=
  Int.tdiv (max_position - 1) (mlbp_mid bucket_size)

/-- Embedding of `make_log_bucket_position` from `src/deberta_v2/attention.rs`.

The source computes, element-wise over the `relative_pos` tensor:
`sign = relative_pos.sign()`, `mid = bucket_size / 2`,
`abs_pos = where(!(−mid < rel < mid), |rel|, mid − 1)`,
`log_pos = ceil( (abs_pos / mid).log() / (((max_position − 1) / mid) as f64).ln()
  * (mid − 1) ) + mid`,
`bucket_pos = where(abs_pos <= mid, rel, log_pos * sign).to_kind(Int64)`.

`(max_position - 1) / mid` is an `i64` scalar division: it panics when
`mid = 0`.  Otherwise the far branch is the IEEE float pipeline
`to_int64( mul_sign( add_mid( ceil( mul_midm1( div( ln(abs_pos/mid),
ln(den_arg) ) ) ) ) ) )`; in particular `den_arg = 1` gives denominator
`ln 1 = 0` and `±inf`/NaN garbage reaches the cast, while `den_arg = 0` gives
denominator `ln 0 = -inf`, so the quotient is `-0.0` and the far entry gets
the finite value `mid * sign(rel)`. -/
noncomputable def make_log_bucket_position
    (relative_pos bucket_size max_position : ℤ) : EntryResult :=
  if mlbp_mid bucket_size = 0 then EntryResult.panic
  else if mlbp_abs_pos relative_pos bucket_size ≤ mlbp_mid bucket_size then
    EntryResult.val relative_pos
  else
    f64_to_int64
      (F64.mulInt
        (F64.addInt
          (F64.ceilF
            (F64.mulInt
              (F64.div
                (f64_ln ((mlbp_abs_pos relative_pos bucket_size : ℝ) /
                  (mlbp_mid bucket_size : ℝ)))
                (f64_ln ((mlbp_den_arg bucket_size max_position : ℝ))))
              (mlbp_mid bucket_size - 1)))
          (mlbp_mid bucket_size))
        (Int.sign relative_pos))

/-- Modelled from the spec: the far-range formula exactly as the spec words it,
`log_pos = ceil( log(abs_pos / mid) / log((max_position - 1) / mid) * (mid - 1) ) + mid`
with real (not integer) division of `(max_position - 1)` by `mid`, final value
`log_pos * sign(rel)`.  Used only to compare the spec's formula with the
source's. -/
noncomputable def log_bucket_position_spec
    (relative_pos bucket_size max_position : ℤ) : ℤ :=
  (⌈Real.log ((|relative_pos| : ℝ) / (mlbp_mid bucket_size : ℝ)) /
      Real.log (((max_position : ℝ) - 1) / (mlbp_mid bucket_size : ℝ)) *
      ((mlbp_mid bucket_size : ℝ) - 1)⌉
    + mlbp_mid bucket_size) * Int.sign relative_pos

/-- A minimal integer tensor: a shape (list of dimension sizes) together with
an entry function on index lists. -/
structure NTensor where
  shape : List ℤ
  entry : List ℤ → EntryResult

/-- Embedding of `build_relative_position` from `src/deberta_v2/attention.rs`.

`q_ids.unsqueeze(-1) - k_ids.tile(&[q, 1])` is the `(query_size, key_size)`
outer-difference matrix with entry `(i, j) = i - j`; when
`bucket_size > 0 && max_position > 0` every entry passes through
`make_log_bucket_position`; `slice(0, 0, query_size, 1)` keeps all
`query_size` rows, and `unsqueeze(0)` prepends a singleton dimension, giving
shape `(1, query_size, key_size)`. -/
noncomputable def build_relative_position
    (query_size key_size bucket_size max_position : ℤ) : NTensor where
  shape := [1, query_size, key_size]
  entry := fun ix =>
    match ix with
    | [_, i, j] =>
      if 0 < bucket_size ∧ 0 < max_position then
        make_log_bucket_position (i - j) bucket_size max_position
      else EntryResult.val (i - j)
    | _ => EntryResult.val 0

/-- Embedding of `RustBertError` (only the variant this code produces). -/
inductive RustBertError where
  | valueError : String → RustBertError
deriving DecidableEq

/-- `unsqueeze(0)` on a shape: prepend a singleton dimension. -/
def unsqueeze_dim0 (s : List ℤ) : List ℤ := 1 :: s

/-- `unsqueeze(1)` on a shape: insert a singleton dimension at index 1. -/
def unsqueeze_dim1 (s : List ℤ) : List ℤ :=
  match s with
  | [] => [1]
  | d :: rest => d :: 1 :: rest

/-- Embedding of the relative-position rank-normalisation `match` of
`disentangled_att_bias` (`src/deberta_v2/attention.rs`): a rank-2 tensor gets
`unsqueeze(0).unsqueeze(0)`, a rank-3 tensor gets `unsqueeze(1)`, a rank-4
tensor is kept, and any other rank is an error value. -/
def normalize_relative_pos_shape (s : List ℤ) : Except RustBertError (List ℤ) :=
  match s.length with
  | 2 => Except.ok (unsqueeze_dim0 (unsqueeze_dim0 s))
  | 3 => Except.ok (unsqueeze_dim1 s)
  | 4 => Except.ok s
  | n =>
    Except.error (RustBertError.valueError
      ("Expected relative position of dimensions 2, 3 or 4, got " ++ toString n))

/-- Call outcome of `disentangled_att_bias`. -/
inductive BiasOutcome where
  | panics : BiasOutcome
  | err : RustBertError → BiasOutcome
  | ok : BiasOutcome
deriving DecidableEq

/-- Shape-level embedding of `disentangled_att_bias`
(`src/deberta_v2/attention.rs`).  When no relative-position tensor is supplied,
`build_relative_position` produces a rank-3 tensor of shape
`(1, query_len, key_len)`.  The supplied or computed shape is normalised by
rank (returning the error value for unsupported ranks); afterwards the method
unwraps `self.pos_embed_size` (a panic when `None`) and, in the current
incomplete implementation, returns `Ok(Tensor::new())`. -/
def disentangled_att_bias (pos_embed_size : Option ℤ) (query_len key_len : ℤ)
    (relative_pos : Option (List ℤ)) : BiasOutcome :=
  let rel_shape := relative_pos.getD [1, query_len, key_len]
  match normalize_relative_pos_shape rel_shape with
  | Except.error e => BiasOutcome.err e
  | Except.ok _ =>
    match pos_embed_size with
    | none => BiasOutcome.panics
    | some _ => BiasOutcome.ok

/-- An input token tensor for the positional embedding: a 2-D integer tensor
of shape `(batch, seq_len)` on a device, with its token values. -/
structure InputTensor where
  batch : ℤ
  seq_len : ℤ
  device : ℤ
  tokens : ℤ → ℤ → ℤ

/-- The learned positional embedding module of `src/bart/embeddings.rs`:
an embedding table (abstract row lookup), the stored `padding_index`, and the
`offset`. -/
structure LearnedPositionalEmbedding (α : Type) where
  num_embeddings : ℤ
  embedding_row : ℤ → α
  padding_index : ℤ
  offset : ℤ

/-- Embedding of `LearnedPositionalEmbedding::new`: `offset = 2`, the table is
allocated with `num_embeddings + offset` rows (the weight itself comes from the
variable store, modelled by the abstract `weight` row function), and
`padding_index` is stored as given. -/
def LearnedPositionalEmbedding.new {α : Type} (weight : ℤ → α)
    (num_embeddings _embedding_dim padding_index : ℤ) :
    LearnedPositionalEmbedding α :=
  { num_embeddings := num_embeddings + 2
    embedding_row := weight
    padding_index := padding_index
    offset := 2 }

/-- Output of `LearnedPositionalEmbedding::forward`: a tensor of
`len` embedding rows on a device. -/
structure PosEmbedOutput (α : Type) where
  len : ℤ
  device : ℤ
  row : ℤ → α

/-- Embedding of `LearnedPositionalEmbedding::forward`: reads only
`input.size()[1]` (the sequence length) and the input's device, builds
`positions = arange(past_key_values_length, past_key_values_length + seq_len)
+ offset`, and applies the embedding table row-wise.  Row `i` of the output is
therefore table row `past_key_values_length + i + offset`. -/
def LearnedPositionalEmbedding.forward {α : Type}
    (self : LearnedPositionalEmbedding α) (input : InputTensor)
    (past_key_values_length : ℤ) : PosEmbedOutput α :=
  { len := input.seq_len
    device := input.device
    row := fun i => self.embedding_row (past_key_values_length + i + self.offset) }

/-- Concrete sample input (constant tokens) used to instantiate theorems. -/
def sample_input_a : InputTensor := ⟨2, 3, 0, fun _ _ => 5⟩

/-- Concrete sample input (varying tokens) with the same shape and device as
`sample_input_a`. -/
def sample_input_b : InputTensor := ⟨2, 3, 0, fun i j => i + j⟩

/-- Concrete sample embedding-weight row function. -/
def sample_weight : ℤ → ℤ := fun z => 10 * z

/-! ## Helper lemmas -/

theorem mlbp_mid_pos (bucket_size : ℤ) (h : 2 ≤ bucket_size) :
    1 ≤ mlbp_mid bucket_size := by
  unfold mlbp_mid
  rw [Int.tdiv_eq_ediv (by omega) (by omega)]
  omega

theorem mlbp_abs_pos_le (rel bucket_size : ℤ) (h : |rel| ≤ mlbp_mid bucket_size) :
    mlbp_abs_pos rel bucket_size ≤ mlbp_mid bucket_size := by
  unfold mlbp_abs_pos
  split
  · omega
  · exact h

/-- Pass-through region of `make_log_bucket_position`: whenever `mid ≠ 0`
(no division-by-zero panic) and `|rel| ≤ mid`, the entry keeps its raw value. -/
theorem mlbp_pass_through (rel bucket_size max_position : ℤ)
    (h0 : mlbp_mid bucket_size ≠ 0) (h : |rel| ≤ mlbp_mid bucket_size) :
    make_log_bucket_position rel bucket_size max_position = EntryResult.val rel := by
  unfold make_log_bucket_position
  rw [if_neg h0, if_pos (mlbp_abs_pos_le rel bucket_size h)]

/-! ## Claims -/

/-- Claim C3: for every entry with `|i - j| < bucket_size/2` (with
`bucket_size > 0` and `max_position > 0`), the bucketed value produced by
`make_log_bucket_position` equals the raw signed distance `i - j` unchanged. -/
theorem C3_near_range_exact (rel bucket_size max_position : ℤ)
    (hb : 0 < bucket_size) (hm : 0 < max_position)
    (h : |rel| < mlbp_mid bucket_size) :
    make_log_bucket_position rel bucket_size max_position = EntryResult.val rel :=
  mlbp_pass_through rel bucket_size max_position
    ((abs_nonneg rel).trans_lt h).ne' h.le

/-- Witness for C3 at `rel = 1`, `bucket_size = 4`, `max_position = 8`. -/
theorem C3_near_range_exact_witness :
    (0 : ℤ) < 4 ∧ (0 : ℤ) < 8 ∧ |(1 : ℤ)| < mlbp_mid 4 ∧
    make_log_bucket_position 1 4 8 = EntryResult.val 1 :=
  ⟨by decide, by decide, by decide,
    C3_near_range_exact 1 4 8 (by decide) (by decide) (by decide)⟩

/-- Counterexample to Claim C9 as stated: at `bucket_size = 1` (allowed by the
claim's `bucket_size > 0`), `max_position = 1` and `rel = 0` we have
`|rel| = bucket_size/2 = 0`, yet the computation panics on the integer
division `(max_position - 1) / mid` with `mid = 0` instead of returning the
raw value `0`. -/
theorem C9_boundary_counterexample :
    make_log_bucket_position 0 1 1 = EntryResult.panic ∧
    (0 : ℤ) < 1 ∧ |(0 : ℤ)| = mlbp_mid 1 := by
  have h : mlbp_mid 1 = 0 := by decide
  exact ⟨by unfold make_log_bucket_position; rw [if_pos h], by decide, by decide⟩

/-- Claim C9 (amended): for `bucket_size ≥ 2` (rather than merely `> 0`, since
`bucket_size = 1` makes `mid = 0` and the scalar division panic) and
`max_position > 0`, every entry with `|i - j| ≤ bucket_size/2` — the boundary
included — keeps its raw value: the pass-through region is `|rel| ≤ mid`,
one wider than the strict `|rel| < mid`, because the final selection keeps
`rel` whenever `abs_pos ≤ mid`. -/
theorem C9_boundary_pass_through (rel bucket_size max_position : ℤ)
    (hb : 2 ≤ bucket_size) (hm : 0 < max_position)
    (h : |rel| ≤ mlbp_mid bucket_size) :
    make_log_bucket_position rel bucket_size max_position = EntryResult.val rel :=
  mlbp_pass_through rel bucket_size max_position
    (by have := mlbp_mid_pos bucket_size hb; omega) h

/-- Witness for the amended C9 at the boundary `|rel| = bucket_size/2`:
`rel = -3`, `bucket_size = 6`, `max_position = 9`. -/
theorem C9_boundary_pass_through_witness :
    (2 : ℤ) ≤ 6 ∧ (0 : ℤ) < 9 ∧ |(-3 : ℤ)| ≤ mlbp_mid 6 ∧
    make_log_bucket_position (-3) 6 9 = EntryResult.val (-3) :=
  ⟨by decide, by decide, by decide,
    C9_boundary_pass_through (-3) 6 9 (by decide) (by decide) (by decide)⟩

/-- Claim C2: with `bucket_size ≤ 0` or `max_position ≤ 0` and positive sizes,
`build_relative_position` returns a rank-3 integer tensor of shape
`(1, query_size, key_size)` whose entry `[0][i][j]` is exactly `i - j`. -/
theorem C2_bucketing_disabled (query_size key_size bucket_size max_position : ℤ)
    (hq : 0 < query_size) (hk : 0 < key_size)
    (h : bucket_size ≤ 0 ∨ max_position ≤ 0) :
    (build_relative_position query_size key_size bucket_size max_position).shape
        = [1, query_size, key_size] ∧
    (build_relative_position query_size key_size bucket_size max_position).shape.length
        = 3 ∧
    ∀ i j : ℤ, 0 ≤ i → i < query_size → 0 ≤ j → j < key_size →
      (build_relative_position query_size key_size bucket_size max_position).entry
          [0, i, j] = EntryResult.val (i - j) := by
  refine ⟨rfl, rfl, ?_⟩
  intro i j _ _ _ _
  have hcond : ¬(0 < bucket_size ∧ 0 < max_position) := by omega
  simp [build_relative_position, hcond]

/-- Witness for C2 at `query_size = 2`, `key_size = 3`, `bucket_size = 0`,
`max_position = 7`, entry `(1, 2)`. -/
theorem C2_bucketing_disabled_witness :
    (0 : ℤ) < 2 ∧ (0 : ℤ) < 3 ∧ ((0 : ℤ) ≤ 0 ∨ (7 : ℤ) ≤ 0) ∧
    (build_relative_position 2 3 0 7).shape = [1, 2, 3] ∧
    (build_relative_position 2 3 0 7).shape.length = 3 ∧
    (build_relative_position 2 3 0 7).entry [0, 1, 2] = EntryResult.val (1 - 2) := by
  have h := C2_bucketing_disabled 2 3 0 7 (by decide) (by decide) (Or.inl (by decide))
  exact ⟨by decide, by decide, Or.inl (by decide), h.1, h.2.1,
    h.2.2 1 2 (by decide) (by decide) (by decide) (by decide)⟩

/-- Claim C5: a relative-position tensor supplied externally with rank 5 makes
`disentangled_att_bias` return an explicit error value (the `ValueError`
variant carrying the message below) to the caller, rather than panicking. -/
theorem C5_rank5_error (pos_embed_size : Option ℤ) (query_len key_len : ℤ)
    (s : List ℤ) (h : s.length = 5) :
    disentangled_att_bias pos_embed_size query_len key_len (some s)
      = BiasOutcome.err (RustBertError.valueError
          "Expected relative position of dimensions 2, 3 or 4, got 5") := by
  unfold disentangled_att_bias
  simp only [Option.getD_some]
  unfold normalize_relative_pos_shape
  rw [h]
  rfl

/-- Witness for C5 with the rank-5 shape `[1, 1, 1, 4, 4]`. -/
theorem C5_rank5_error_witness :
    ([1, 1, 1, 4, 4] : List ℤ).length = 5 ∧
    disentangled_att_bias (some 3) 4 4 (some [1, 1, 1, 4, 4])
      = BiasOutcome.err (RustBertError.valueError
          "Expected relative position of dimensions 2, 3 or 4, got 5") :=
  ⟨by decide, C5_rank5_error (some 3) 4 4 [1, 1, 1, 4, 4] (by decide)⟩

/-- Counterexample to Claim C6 as stated: a rank-2 relative-position shape
`[3, 4]` normalises to the rank-4 shape `[1, 1, 3, 4]` — two unsqueezes, so
the output rank is the input rank plus two, not plus one. -/
theorem C6_rank2_counterexample :
    normalize_relative_pos_shape [3, 4] = Except.ok [1, 1, 3, 4] ∧
    ¬(([1, 1, 3, 4] : List ℤ).length = ([3, 4] : List ℤ).length + 1) :=
  ⟨rfl, by decide⟩

/-- Claim C6 (amended): in the unsqueeze normalisation path, every accepted
input shape of rank 2 or 3 normalises to rank exactly 4 — one more than the
input rank for rank-3 inputs, but two more for rank-2 inputs. -/
theorem C6_normalized_rank_four (s : List ℤ)
    (h : s.length = 2 ∨ s.length = 3) :
    Except.map List.length (normalize_relative_pos_shape s) = Except.ok 4 := by
  unfold normalize_relative_pos_shape
  rcases h with h | h
  · rw [h]
    simp [Except.map, unsqueeze_dim0, h]
  · rw [h]
    match s, h with
    | [a, b, c], _ => rfl

/-- Witness for the amended C6 at the rank-3 shape `[5, 6, 7]`. -/
theorem C6_normalized_rank_four_witness :
    (([5, 6, 7] : List ℤ).length = 2 ∨ ([5, 6, 7] : List ℤ).length = 3) ∧
    Except.map List.length (normalize_relative_pos_shape [5, 6, 7]) = Except.ok 4 :=
  ⟨Or.inr (by decide), C6_normalized_rank_four [5, 6, 7] (Or.inr (by decide))⟩

/-- Claim C10: `LearnedPositionalEmbedding::forward` depends only on the
input's sequence length (`shape[1]`) and device, never on the token values:
two inputs with the same shape and device give identical outputs; output row
`i` is embedding-table row `past_key_values_length + 2 + i` (fixed offset 2);
the constructor stores `padding_index`, but `forward` never consults it
(changing it leaves the output unchanged). -/
theorem C10_forward_position_only (α : Type) (weight : ℤ → α)
    (num_embeddings embedding_dim padding_index padding_index2 past i : ℤ)
    (input1 input2 : InputTensor)
    (hbatch : input1.batch = input2.batch)
    (hseq : input1.seq_len = input2.seq_len)
    (hdev : input1.device = input2.device) :
    (LearnedPositionalEmbedding.new weight num_embeddings embedding_dim
        padding_index).forward input1 past
      = (LearnedPositionalEmbedding.new weight num_embeddings embedding_dim
          padding_index).forward input2 past ∧
    ((LearnedPositionalEmbedding.new weight num_embeddings embedding_dim
        padding_index).forward input1 past).row i = weight (past + 2 + i) ∧
    ((LearnedPositionalEmbedding.new weight num_embeddings embedding_dim
        padding_index).forward input1 past).len = input1.seq_len ∧
    (LearnedPositionalEmbedding.new weight num_embeddings embedding_dim
        padding_index).offset = 2 ∧
    (LearnedPositionalEmbedding.new weight num_embeddings embedding_dim
        padding_index).padding_index = padding_index ∧
    (LearnedPositionalEmbedding.new weight num_embeddings embedding_dim
        padding_index2).forward input1 past
      = (LearnedPositionalEmbedding.new weight num_embeddings embedding_dim
          padding_index).forward input1 past := by
  refine ⟨?_, ?_, rfl, rfl, rfl, rfl⟩
  · unfold LearnedPositionalEmbedding.forward
    rw [hseq, hdev]
  · show weight (past + i + 2) = weight (past + 2 + i)
    exact congrArg weight (by ring)

/-- Witness for C10: same shape `(2, 3)` and device, different token values. -/
theorem C10_forward_position_only_witness :
    sample_input_a.batch = sample_input_b.batch ∧
    sample_input_a.seq_len = sample_input_b.seq_len ∧
    sample_input_a.device = sample_input_b.device ∧
    (LearnedPositionalEmbedding.new sample_weight 10 16 1).forward sample_input_a 4
      = (LearnedPositionalEmbedding.new sample_weight 10 16 1).forward sample_input_b 4 ∧
    ((LearnedPositionalEmbedding.new sample_weight 10 16 1).forward
        sample_input_a 4).row 0 = sample_weight (4 + 2 + 0) ∧
    (LearnedPositionalEmbedding.new sample_weight 10 16 99).forward sample_input_a 4
      = (LearnedPositionalEmbedding.new sample_weight 10 16 1).forward sample_input_a 4 := by
  have h := C10_forward_position_only ℤ sample_weight 10 16 1 99 4 0
    sample_input_a sample_input_b rfl rfl rfl
  exact ⟨rfl, rfl, rfl, h.1, h.2.1, h.2.2.2.2.2⟩

/-! ## Far-range helper lemmas -/

theorem mlbp_abs_pos_far (rel bucket_size : ℤ)
    (h : mlbp_mid bucket_size < |rel|) :
    mlbp_abs_pos rel bucket_size = |rel| := by
  unfold mlbp_abs_pos
  rw [if_neg]
  rw [← abs_lt]
  omega

/-- With `bucket_size ≥ 2` and `max_position - 1 ≥ 2 * mid`, the integer
quotient `(max_position - 1) / mid` is at least 2 (so its logarithm is a
positive real). -/
theorem mlbp_den_arg_ge_two (bucket_size max_position : ℤ)
    (hb : 2 ≤ bucket_size) (hm : 2 * mlbp_mid bucket_size ≤ max_position - 1) :
    2 ≤ mlbp_den_arg bucket_size max_position := by
  have hmid := mlbp_mid_pos bucket_size hb
  unfold mlbp_den_arg
  rw [Int.tdiv_eq_ediv (by omega) (by omega)]
  rw [Int.le_ediv_iff_mul_le (by omega : (0 : ℤ) < mlbp_mid bucket_size)]
  omega

/-- Truncation toward zero is exact on integer-valued reals. -/
theorem rust_trunc_intCast (z : ℤ) : rust_trunc ((z : ℤ) : ℝ) = z := by
  unfold rust_trunc
  split
  · exact Int.floor_intCast z
  · exact Int.ceil_intCast z

/-- A finite value surviving to the `ceil` step yields the integer
`(⌈a⌉ + m) * s` after ceil, the `+ mid` shift, the sign multiplication and
the `Int64` cast. -/
theorem f64_pipeline_fin_val (a : ℝ) (m s : ℤ) :
    f64_to_int64 (F64.mulInt (F64.addInt (F64.ceilF (F64.fin a)) m) s)
      = EntryResult.val ((⌈a⌉ + m) * s) := by
  simp only [F64.ceilF, F64.addInt, F64.mulInt, f64_to_int64]
  congr 1
  have h : (((⌈a⌉ : ℤ) : ℝ) + (m : ℝ)) * ((s : ℤ) : ℝ)
      = ((((⌈a⌉ + m) * s) : ℤ) : ℝ) := by
    push_cast
    ring
  rw [h, rust_trunc_intCast]

/-- The sign of a non-zero integer has absolute value 1. -/
theorem int_abs_sign_of_ne_zero (a : ℤ) (h : a ≠ 0) : |Int.sign a| = 1 := by
  rcases lt_or_gt_of_ne h with h1 | h1
  · rw [Int.sign_eq_neg_one_of_neg h1]
    decide
  · rw [Int.sign_eq_one_of_pos h1]
    decide

/-- Evaluation of `make_log_bucket_position` on a far-range entry under a
good configuration (`bucket_size ≥ 2`, denominator quotient at least 2):
the value is `(ceil(log(|rel|/mid) / log((max_position-1) div mid) * (mid-1))
+ mid) * sign rel`. -/
theorem mlbp_far_val (rel bucket_size max_position : ℤ)
    (hb : 2 ≤ bucket_size) (hd : 2 ≤ mlbp_den_arg bucket_size max_position)
    (hf : mlbp_mid bucket_size < |rel|) :
    make_log_bucket_position rel bucket_size max_position =
      EntryResult.val
        ((⌈Real.log (((|rel| : ℤ) : ℝ) / ((mlbp_mid bucket_size : ℤ) : ℝ)) /
            Real.log (((mlbp_den_arg bucket_size max_position : ℤ) : ℝ)) *
            (((mlbp_mid bucket_size : ℤ) : ℝ) - 1)⌉
          + mlbp_mid bucket_size) * Int.sign rel) := by
  have hmid := mlbp_mid_pos bucket_size hb
  have habs := mlbp_abs_pos_far rel bucket_size hf
  have hnum_pos : (0 : ℝ) < ((|rel| : ℤ) : ℝ) / ((mlbp_mid bucket_size : ℤ) : ℝ) := by
    apply div_pos
    · exact_mod_cast lt_of_le_of_lt (by omega) hf
    · exact_mod_cast hmid
  have hden_pos : (0 : ℝ) < (mlbp_den_arg bucket_size max_position : ℝ) := by
    exact_mod_cast lt_of_lt_of_le (by omega) hd
  have hlog_den_ne : Real.log ((mlbp_den_arg bucket_size max_position : ℝ)) ≠ 0 := by
    apply ne_of_gt
    apply Real.log_pos
    exact_mod_cast hd
  unfold make_log_bucket_position
  rw [if_neg (by omega), if_neg (by rw [habs]; omega), habs]
  unfold f64_ln
  rw [if_pos hnum_pos, if_pos hden_pos]
  simp only [F64.div]
  rw [if_pos hlog_den_ne]
  simp only [F64.mulInt]
  rw [show ((mlbp_mid bucket_size - 1 : ℤ) : ℝ)
      = (((mlbp_mid bucket_size : ℤ) : ℝ) - 1) from by push_cast; ring]
  exact f64_pipeline_fin_val _ _ _

/-- Evaluation of `make_log_bucket_position` on a far-range entry when the
denominator quotient is 0 (`1 ≤ max_position ≤ mid`, say): the denominator is
`ln 0 = -inf`, IEEE gives `finite / -inf = -0.0`, and the far entry collapses
to the finite value `mid * sign rel` — not garbage. -/
theorem mlbp_far_val_den_zero (rel bucket_size max_position : ℤ)
    (hb : 2 ≤ bucket_size) (hd : mlbp_den_arg bucket_size max_position = 0)
    (hf : mlbp_mid bucket_size < |rel|) :
    make_log_bucket_position rel bucket_size max_position
      = EntryResult.val (mlbp_mid bucket_size * Int.sign rel) := by
  have hmid := mlbp_mid_pos bucket_size hb
  have habs := mlbp_abs_pos_far rel bucket_size hf
  have hnum_pos : (0 : ℝ) < ((|rel| : ℤ) : ℝ) / ((mlbp_mid bucket_size : ℤ) : ℝ) := by
    apply div_pos
    · exact_mod_cast lt_of_le_of_lt (by omega) hf
    · exact_mod_cast hmid
  unfold make_log_bucket_position
  rw [if_neg (by omega), if_neg (by rw [habs]; omega), habs, hd]
  unfold f64_ln
  rw [if_pos hnum_pos, if_neg (by norm_num), if_pos (by norm_num)]
  simp only [F64.div, F64.mulInt]
  rw [zero_mul]
  have h := f64_pipeline_fin_val 0 (mlbp_mid bucket_size) (Int.sign rel)
  rw [Int.ceil_zero, zero_add] at h
  exact h

/-- Evaluation of `make_log_bucket_position` on a far-range entry when the
denominator quotient is 1 (`max_position = mid + 1`, say): the denominator is
`ln 1 = 0`, the quotient is `+inf`, and `±inf` (or NaN, when `mid = 1`)
reaches the `Int64` cast: garbage. -/
theorem mlbp_far_val_den_one (rel bucket_size max_position : ℤ)
    (hb : 2 ≤ bucket_size) (hd : mlbp_den_arg bucket_size max_position = 1)
    (hf : mlbp_mid bucket_size < |rel|) :
    make_log_bucket_position rel bucket_size max_position
      = EntryResult.nonFinite := by
  have hmid := mlbp_mid_pos bucket_size hb
  have habs := mlbp_abs_pos_far rel bucket_size hf
  have hmidR : (0 : ℝ) < ((mlbp_mid bucket_size : ℤ) : ℝ) := by exact_mod_cast hmid
  have hnum_pos : (0 : ℝ) < ((|rel| : ℤ) : ℝ) / ((mlbp_mid bucket_size : ℤ) : ℝ) := by
    apply div_pos
    · exact_mod_cast lt_of_le_of_lt (by omega) hf
    · exact hmidR
  have hlog_pos : (0 : ℝ) <
      Real.log (((|rel| : ℤ) : ℝ) / ((mlbp_mid bucket_size : ℤ) : ℝ)) := by
    apply Real.log_pos
    rw [one_lt_div hmidR]
    exact_mod_cast hf
  have hrel_ne : rel ≠ 0 := by
    intro h
    rw [h] at hf
    simp only [abs_zero] at hf
    omega
  unfold make_log_bucket_position
  rw [if_neg (by omega), if_neg (by rw [habs]; omega), habs, hd]
  unfold f64_ln
  rw [if_pos hnum_pos, if_pos (by norm_num : (0 : ℝ) < ((1 : ℤ) : ℝ))]
  rw [show Real.log (((1 : ℤ) : ℝ)) = 0 from by push_cast; exact Real.log_one]
  simp only [F64.div]
  rw [if_neg (by simp), if_pos hlog_pos]
  simp only [F64.mulInt]
  rcases eq_or_lt_of_le hmid with h1 | h1
  · rw [if_neg (by omega), if_neg (by omega)]
    simp only [F64.ceilF, F64.addInt, F64.mulInt, f64_to_int64]
  · rw [if_pos (by omega)]
    simp only [F64.ceilF, F64.addInt, F64.mulInt]
    rcases lt_or_gt_of_ne hrel_ne with h | h
    · rw [Int.sign_eq_neg_one_of_neg h]
      rw [if_neg (by norm_num), if_pos (by norm_num)]
      rfl
    · rw [Int.sign_eq_one_of_pos h]
      rw [if_pos (by norm_num)]
      rfl

/-- Counterexample to Claim C4 as stated: `bucket_size = 4`, `max_position = 3`
is an invalid configuration (`max_position ≤ bucket_size/2 + 1`), yet
`make_log_bucket_position` does not abort: at `rel = 3` the denominator
quotient is `(3-1)/2 = 1`, its logarithm is `0`, the quotient of the two
logarithms is `+inf`, and the non-finite value silently reaches the integer
cast — garbage, not a fail-fast rejection. -/
theorem C4_counterexample :
    (3 : ℤ) ≤ mlbp_mid 4 + 1 ∧
    make_log_bucket_position 3 4 3 = EntryResult.nonFinite :=
  ⟨by decide, mlbp_far_val_den_one 3 4 3 (by decide) (by decide) (by decide)⟩

/-- Claim C4 (amended): the code performs no parameter validation at all; in
no case are the parameters rejected before the logarithm.  With
`bucket_size = 1` it panics on the `i64` division `(max_position-1)/0` (only
after the element-wise logarithm tensor has been formed).  With
`bucket_size ≥ 2` and `max_position = bucket_size/2 + 1` the denominator
logarithm is `log 1 = 0`, and a non-finite value silently reaches the `Int64`
cast for every far-range entry: garbage.  With `bucket_size ≥ 2` and
`0 < max_position ≤ bucket_size/2` the denominator is `ln 0 = -inf`, and
every far-range entry silently collapses to the finite constant bucket
`(bucket_size/2) * sign(rel)` (IEEE `finite / -inf = -0.0`) — degenerate but
finite, not garbage. -/
theorem C4_amended (rel bucket_size max_position : ℤ) :
    make_log_bucket_position rel 1 max_position = EntryResult.panic ∧
    (2 ≤ bucket_size → max_position = mlbp_mid bucket_size + 1 →
      mlbp_mid bucket_size < |rel| →
      make_log_bucket_position rel bucket_size max_position
        = EntryResult.nonFinite) ∧
    (2 ≤ bucket_size → 0 < max_position → max_position ≤ mlbp_mid bucket_size →
      mlbp_mid bucket_size < |rel| →
      make_log_bucket_position rel bucket_size max_position
        = EntryResult.val (mlbp_mid bucket_size * Int.sign rel)) := by
  refine ⟨?_, ?_, ?_⟩
  · unfold make_log_bucket_position
    rw [if_pos (by decide)]
  · intro hb hm hf
    apply mlbp_far_val_den_one rel bucket_size max_position hb ?_ hf
    have hmid := mlbp_mid_pos bucket_size hb
    unfold mlbp_den_arg
    rw [hm, show mlbp_mid bucket_size + 1 - 1 = mlbp_mid bucket_size from by ring]
    rw [Int.tdiv_eq_ediv (by omega) (by omega)]
    exact Int.ediv_self (by omega)
  · intro hb hmp hm hf
    apply mlbp_far_val_den_zero rel bucket_size max_position hb ?_ hf
    have hmid := mlbp_mid_pos bucket_size hb
    unfold mlbp_den_arg
    rw [Int.tdiv_eq_ediv (by omega) (by omega)]
    exact Int.ediv_eq_zero_of_lt (by omega) (by omega)

/-- Witness for the amended C4: panic at `bucket_size = 1`; non-finite
garbage at `rel = 5`, `bucket_size = 8`, `max_position = 5` (quotient 1);
the finite constant bucket at `rel = 5`, `bucket_size = 6`,
`max_position = 2` (quotient 0). -/
theorem C4_amended_witness :
    make_log_bucket_position 7 1 9 = EntryResult.panic ∧
    ((2 : ℤ) ≤ 8 ∧ (5 : ℤ) = mlbp_mid 8 + 1 ∧ mlbp_mid 8 < |(5 : ℤ)|) ∧
    make_log_bucket_position 5 8 5 = EntryResult.nonFinite ∧
    ((2 : ℤ) ≤ 6 ∧ (0 : ℤ) < 2 ∧ (2 : ℤ) ≤ mlbp_mid 6 ∧ mlbp_mid 6 < |(5 : ℤ)|) ∧
    make_log_bucket_position 5 6 2 = EntryResult.val (mlbp_mid 6 * Int.sign 5) :=
  ⟨(C4_amended 7 8 9).1,
    ⟨by decide, by decide, by decide⟩,
    (C4_amended 5 8 5).2.1 (by decide) (by decide) (by decide),
    ⟨by decide, by decide, by decide, by decide⟩,
    (C4_amended 5 6 2).2.2 (by decide) (by decide) (by decide) (by decide)⟩

/-- Counterexample to Claim C7 as stated: `bucket_size = 1` and
`max_position = 1` satisfy the claim's hypotheses (`bucket_size > 0`,
`max_position > 0`) and `rel = 1` is far-range (`|rel| > bucket_size/2 = 0`),
yet the computation panics on the integer division `(max_position - 1) / 0`,
so there is no bucketed value at all, let alone an antisymmetric pair. -/
theorem C7_counterexample :
    (0 : ℤ) < 1 ∧ (0 : ℤ) < 1 ∧ mlbp_mid 1 < |(1 : ℤ)| ∧
    make_log_bucket_position 1 1 1 = EntryResult.panic := by
  refine ⟨by decide, by decide, by decide, ?_⟩
  unfold make_log_bucket_position
  rw [if_pos (by decide)]

/-- Claim C7 (amended): sign antisymmetry of far-range buckets holds exactly
on the configurations where the computation produces integer values:
`bucket_size ≥ 2` and a denominator quotient `(max_position - 1) div mid` that
is either `0` (every far entry gets the finite constant bucket
`mid * sign(rel)`, since IEEE gives `finite / ln 0 = finite / -inf = -0.0`)
or at least `2` (the ordinary log formula).  There, swapping query and key
(negating `rel`) negates the bucket value.  Excluded are only
`bucket_size = 1` (an `i64` division-by-zero panic, the counterexample) and
quotient `1` or negative (a non-finite value reaches the `Int64` cast, so no
integer bucket values exist). -/
theorem C7_antisymmetry (rel bucket_size max_position : ℤ)
    (hb : 2 ≤ bucket_size)
    (hd : mlbp_den_arg bucket_size max_position = 0
      ∨ 2 ≤ mlbp_den_arg bucket_size max_position)
    (hf : mlbp_mid bucket_size < |rel|) :
    make_log_bucket_position (-rel) bucket_size max_position
      = (make_log_bucket_position rel bucket_size max_position).neg ∧
    (make_log_bucket_position rel bucket_size max_position).isVal = true := by
  rcases hd with hd | hd
  · rw [mlbp_far_val_den_zero rel bucket_size max_position hb hd hf,
        mlbp_far_val_den_zero (-rel) bucket_size max_position hb hd
          (by rwa [abs_neg])]
    refine ⟨?_, rfl⟩
    rw [Int.sign_neg]
    simp only [EntryResult.neg]
    congr 1
    ring
  · rw [mlbp_far_val rel bucket_size max_position hb hd hf,
        mlbp_far_val (-rel) bucket_size max_position hb hd (by rwa [abs_neg])]
    refine ⟨?_, rfl⟩
    rw [abs_neg, Int.sign_neg]
    simp only [EntryResult.neg]
    congr 1
    ring

/-- Witness for the amended C7: an ordinary-formula instance at `rel = 5`,
`bucket_size = 4`, `max_position = 20` (quotient 9), and a constant-bucket
instance at `rel = 4`, `bucket_size = 6`, `max_position = 3` (quotient 0,
values ±3). -/
theorem C7_antisymmetry_witness :
    ((2 : ℤ) ≤ 4 ∧ (mlbp_den_arg 4 20 = 0 ∨ 2 ≤ mlbp_den_arg 4 20) ∧
      mlbp_mid 4 < |(5 : ℤ)|) ∧
    make_log_bucket_position (-5) 4 20
      = (make_log_bucket_position 5 4 20).neg ∧
    (make_log_bucket_position 5 4 20).isVal = true ∧
    ((2 : ℤ) ≤ 6 ∧ (mlbp_den_arg 6 3 = 0 ∨ 2 ≤ mlbp_den_arg 6 3) ∧
      mlbp_mid 6 < |(4 : ℤ)|) ∧
    make_log_bucket_position (-4) 6 3
      = (make_log_bucket_position 4 6 3).neg ∧
    (make_log_bucket_position 4 6 3).isVal = true :=
  ⟨⟨by decide, Or.inr (by decide), by decide⟩,
    (C7_antisymmetry 5 4 20 (by decide) (Or.inr (by decide)) (by decide)).1,
    (C7_antisymmetry 5 4 20 (by decide) (Or.inr (by decide)) (by decide)).2,
    ⟨by decide, Or.inl (by decide), by decide⟩,
    (C7_antisymmetry 4 6 3 (by decide) (Or.inl (by decide)) (by decide)).1,
    (C7_antisymmetry 4 6 3 (by decide) (Or.inl (by decide)) (by decide)).2⟩

/-- Under a good configuration the far-range ceiling term is non-negative. -/
theorem mlbp_far_ceil_nonneg (rel bucket_size max_position : ℤ)
    (hb : 2 ≤ bucket_size) (hd : 2 ≤ mlbp_den_arg bucket_size max_position)
    (hf : mlbp_mid bucket_size < |rel|) :
    0 ≤ ⌈Real.log (((|rel| : ℤ) : ℝ) / ((mlbp_mid bucket_size : ℤ) : ℝ)) /
          Real.log (((mlbp_den_arg bucket_size max_position : ℤ) : ℝ)) *
          (((mlbp_mid bucket_size : ℤ) : ℝ) - 1)⌉ := by
  have hmid := mlbp_mid_pos bucket_size hb
  apply Int.ceil_nonneg
  apply mul_nonneg
  · apply div_nonneg
    · apply Real.log_nonneg
      rw [le_div_iff (by exact_mod_cast hmid : (0 : ℝ) < _), one_mul]
      exact_mod_cast le_of_lt hf
    · apply Real.log_nonneg
      exact_mod_cast (by omega : (1 : ℤ) ≤ mlbp_den_arg bucket_size max_position)
  · have h1 : (1 : ℝ) ≤ ((mlbp_mid bucket_size : ℤ) : ℝ) := by exact_mod_cast hmid
    linarith

/-- Magnitude of a far-range bucket value under a good configuration. -/
theorem mlbp_far_absVal (rel bucket_size max_position : ℤ)
    (hb : 2 ≤ bucket_size) (hd : 2 ≤ mlbp_den_arg bucket_size max_position)
    (hf : mlbp_mid bucket_size < |rel|) :
    (make_log_bucket_position rel bucket_size max_position).absVal
      = ⌈Real.log (((|rel| : ℤ) : ℝ) / ((mlbp_mid bucket_size : ℤ) : ℝ)) /
          Real.log (((mlbp_den_arg bucket_size max_position : ℤ) : ℝ)) *
          (((mlbp_mid bucket_size : ℤ) : ℝ) - 1)⌉ + mlbp_mid bucket_size := by
  have hmid := mlbp_mid_pos bucket_size hb
  have hceil := mlbp_far_ceil_nonneg rel bucket_size max_position hb hd hf
  rw [mlbp_far_val rel bucket_size max_position hb hd hf]
  simp only [EntryResult.absVal]
  have hrel_ne : rel ≠ 0 := by
    intro h
    rw [h] at hf
    simp only [abs_zero] at hf
    omega
  rw [abs_mul, int_abs_sign_of_ne_zero rel hrel_ne, mul_one,
    abs_of_nonneg (by omega)]

/-- Magnitude of a far-range bucket value when the denominator quotient is 0:
the constant bucket `mid * sign rel` has magnitude `mid`. -/
theorem mlbp_far_absVal_den_zero (rel bucket_size max_position : ℤ)
    (hb : 2 ≤ bucket_size) (hd : mlbp_den_arg bucket_size max_position = 0)
    (hf : mlbp_mid bucket_size < |rel|) :
    (make_log_bucket_position rel bucket_size max_position).absVal
      = mlbp_mid bucket_size := by
  have hmid := mlbp_mid_pos bucket_size hb
  rw [mlbp_far_val_den_zero rel bucket_size max_position hb hd hf]
  simp only [EntryResult.absVal]
  have hrel_ne : rel ≠ 0 := by
    intro h
    rw [h] at hf
    simp only [abs_zero] at hf
    omega
  rw [abs_mul, int_abs_sign_of_ne_zero rel hrel_ne, mul_one,
    abs_of_nonneg (by omega)]

/-- On every value-producing configuration (`bucket_size ≥ 2`, denominator
quotient 0 or at least 2) every entry yields an integer value. -/
theorem mlbp_isVal (rel bucket_size max_position : ℤ)
    (hb : 2 ≤ bucket_size)
    (hd : mlbp_den_arg bucket_size max_position = 0
      ∨ 2 ≤ mlbp_den_arg bucket_size max_position) :
    (make_log_bucket_position rel bucket_size max_position).isVal = true := by
  have hmid := mlbp_mid_pos bucket_size hb
  rcases le_or_lt |rel| (mlbp_mid bucket_size) with h | h
  · rw [mlbp_pass_through rel bucket_size max_position (by omega) h]
    rfl
  · rcases hd with hd | hd
    · rw [mlbp_far_val_den_zero rel bucket_size max_position hb hd h]
      rfl
    · rw [mlbp_far_val rel bucket_size max_position hb hd h]
      rfl

/-- Bucket magnitude is monotone in `|rel|` on every value-producing
configuration. -/
theorem mlbp_absVal_mono (rel1 rel2 bucket_size max_position : ℤ)
    (hb : 2 ≤ bucket_size)
    (hd : mlbp_den_arg bucket_size max_position = 0
      ∨ 2 ≤ mlbp_den_arg bucket_size max_position)
    (habs : |rel1| ≤ |rel2|) :
    (make_log_bucket_position rel1 bucket_size max_position).absVal
      ≤ (make_log_bucket_position rel2 bucket_size max_position).absVal := by
  have hmid := mlbp_mid_pos bucket_size hb
  have hmidR : (0 : ℝ) < ((mlbp_mid bucket_size : ℤ) : ℝ) := by exact_mod_cast hmid
  rcases le_or_lt |rel2| (mlbp_mid bucket_size) with h2 | h2
  · have h1 : |rel1| ≤ mlbp_mid bucket_size := le_trans habs h2
    rw [mlbp_pass_through rel1 bucket_size max_position (by omega) h1,
        mlbp_pass_through rel2 bucket_size max_position (by omega) h2]
    simp only [EntryResult.absVal]
    exact habs
  · rcases le_or_lt |rel1| (mlbp_mid bucket_size) with h1 | h1
    · rcases hd with hd | hd
      · rw [mlbp_pass_through rel1 bucket_size max_position (by omega) h1,
            mlbp_far_absVal_den_zero rel2 bucket_size max_position hb hd h2]
        simp only [EntryResult.absVal]
        exact h1
      · rw [mlbp_pass_through rel1 bucket_size max_position (by omega) h1,
            mlbp_far_absVal rel2 bucket_size max_position hb hd h2]
        simp only [EntryResult.absVal]
        have hc := mlbp_far_ceil_nonneg rel2 bucket_size max_position hb hd h2
        linarith
    · rcases hd with hd | hd
      · rw [mlbp_far_absVal_den_zero rel1 bucket_size max_position hb hd h1,
            mlbp_far_absVal_den_zero rel2 bucket_size max_position hb hd h2]
      · rw [mlbp_far_absVal rel1 bucket_size max_position hb hd h1,
            mlbp_far_absVal rel2 bucket_size max_position hb hd h2]
        have hceil :
            ⌈Real.log (((|rel1| : ℤ) : ℝ) / ((mlbp_mid bucket_size : ℤ) : ℝ)) /
                Real.log (((mlbp_den_arg bucket_size max_position : ℤ) : ℝ)) *
                (((mlbp_mid bucket_size : ℤ) : ℝ) - 1)⌉
              ≤ ⌈Real.log (((|rel2| : ℤ) : ℝ) / ((mlbp_mid bucket_size : ℤ) : ℝ)) /
                  Real.log (((mlbp_den_arg bucket_size max_position : ℤ) : ℝ)) *
                  (((mlbp_mid bucket_size : ℤ) : ℝ) - 1)⌉ := by
          apply Int.ceil_mono
          have hden_pos : (0 : ℝ) <
              Real.log (((mlbp_den_arg bucket_size max_position : ℤ) : ℝ)) := by
            apply Real.log_pos
            exact_mod_cast (by omega : (1 : ℤ) < mlbp_den_arg bucket_size max_position)
          have harg_pos : (0 : ℝ) <
              ((|rel1| : ℤ) : ℝ) / ((mlbp_mid bucket_size : ℤ) : ℝ) := by
            apply div_pos _ hmidR
            exact_mod_cast lt_of_le_of_lt (by omega) h1
          have hlog_le :
              Real.log (((|rel1| : ℤ) : ℝ) / ((mlbp_mid bucket_size : ℤ) : ℝ))
                ≤ Real.log (((|rel2| : ℤ) : ℝ) / ((mlbp_mid bucket_size : ℤ) : ℝ)) := by
            apply Real.log_le_log harg_pos
            apply (div_le_div_right hmidR).mpr
            exact_mod_cast habs
          apply mul_le_mul_of_nonneg_right
          · exact (div_le_div_right hden_pos).mpr hlog_le
          · have h1 : (1 : ℝ) ≤ ((mlbp_mid bucket_size : ℤ) : ℝ) := by
              exact_mod_cast hmid
            linarith
        omega

/-- Counterexample to Claim C8 as stated: `bucket_size = 1`, `max_position = 5`
satisfy the claim's hypotheses (`bucket_size > 0`, `max_position > 0`), and
`rel1 = 1`, `rel2 = 2` are a fixed-sign pair with `|rel1| ≤ |rel2|`, yet the
computation panics on the `i64` division `(max_position - 1) / (bucket_size/2)
= 4 / 0`: no bucketed values — and hence no magnitudes ordered by the claim —
exist at all. -/
theorem C8_counterexample :
    (0 : ℤ) < 1 ∧ (0 : ℤ) < 5 ∧ (0 : ℤ) ≤ 1 ∧ (0 : ℤ) ≤ 2 ∧
    |(1 : ℤ)| ≤ |(2 : ℤ)| ∧
    make_log_bucket_position 1 1 5 = EntryResult.panic ∧
    make_log_bucket_position 2 1 5 = EntryResult.panic := by
  refine ⟨by decide, by decide, by decide, by decide, by decide, ?_, ?_⟩
  · unfold make_log_bucket_position
    rw [if_pos (by decide)]
  · unfold make_log_bucket_position
    rw [if_pos (by decide)]

/-- Claim C8 (amended): monotonicity of the bucket magnitude in `|i - j|`
holds exactly on the configurations where the computation produces integer
values: `bucket_size ≥ 2` and a denominator quotient
`(max_position - 1) div mid` that is either `0` (every far entry gets the
finite constant bucket of magnitude `mid`, since IEEE gives
`finite / ln 0 = -0.0`) or at least `2` (the ordinary log formula).  There,
for entries of a fixed sign, both bucket values exist and the magnitude is
non-decreasing as `|i - j|` increases.  Excluded are only `bucket_size = 1`
(an `i64` division-by-zero panic, the counterexample) and quotient `1` or
negative (a non-finite value reaches the `Int64` cast, so no integer bucket
values exist). -/
theorem C8_magnitude_monotone (rel1 rel2 bucket_size max_position : ℤ)
    (hb : 2 ≤ bucket_size)
    (hd : mlbp_den_arg bucket_size max_position = 0
      ∨ 2 ≤ mlbp_den_arg bucket_size max_position)
    (hsign : (0 ≤ rel1 ∧ 0 ≤ rel2) ∨ (rel1 ≤ 0 ∧ rel2 ≤ 0))
    (habs : |rel1| ≤ |rel2|) :
    (make_log_bucket_position rel1 bucket_size max_position).isVal = true ∧
    (make_log_bucket_position rel2 bucket_size max_position).isVal = true ∧
    (make_log_bucket_position rel1 bucket_size max_position).absVal
      ≤ (make_log_bucket_position rel2 bucket_size max_position).absVal :=
  ⟨mlbp_isVal rel1 bucket_size max_position hb hd,
    mlbp_isVal rel2 bucket_size max_position hb hd,
    mlbp_absVal_mono rel1 rel2 bucket_size max_position hb hd habs⟩

/-- Witness for the amended C8: an ordinary-formula instance at `rel1 = 3`,
`rel2 = 7`, `bucket_size = 4`, `max_position = 20` (quotient 9), and a
constant-bucket instance at `rel1 = 2`, `rel2 = 5`, `bucket_size = 6`,
`max_position = 3` (quotient 0). -/
theorem C8_magnitude_monotone_witness :
    ((2 : ℤ) ≤ 4 ∧ (mlbp_den_arg 4 20 = 0 ∨ 2 ≤ mlbp_den_arg 4 20) ∧
      (((0 : ℤ) ≤ 3 ∧ (0 : ℤ) ≤ 7) ∨ ((3 : ℤ) ≤ 0 ∧ (7 : ℤ) ≤ 0)) ∧
      |(3 : ℤ)| ≤ |(7 : ℤ)|) ∧
    ((make_log_bucket_position 3 4 20).isVal = true ∧
      (make_log_bucket_position 7 4 20).isVal = true ∧
      (make_log_bucket_position 3 4 20).absVal
        ≤ (make_log_bucket_position 7 4 20).absVal) ∧
    ((2 : ℤ) ≤ 6 ∧ (mlbp_den_arg 6 3 = 0 ∨ 2 ≤ mlbp_den_arg 6 3) ∧
      (((0 : ℤ) ≤ 2 ∧ (0 : ℤ) ≤ 5) ∨ ((2 : ℤ) ≤ 0 ∧ (5 : ℤ) ≤ 0)) ∧
      |(2 : ℤ)| ≤ |(5 : ℤ)|) ∧
    ((make_log_bucket_position 2 6 3).isVal = true ∧
      (make_log_bucket_position 5 6 3).isVal = true ∧
      (make_log_bucket_position 2 6 3).absVal
        ≤ (make_log_bucket_position 5 6 3).absVal) :=
  ⟨⟨by decide, Or.inr (by decide), Or.inl ⟨by decide, by decide⟩, by decide⟩,
    C8_magnitude_monotone 3 7 4 20 (by decide) (Or.inr (by decide))
      (Or.inl ⟨by decide, by decide⟩) (by decide),
    ⟨by decide, Or.inl (by decide), Or.inl ⟨by decide, by decide⟩, by decide⟩,
    C8_magnitude_monotone 2 5 6 3 (by decide) (Or.inl (by decide))
      (Or.inl ⟨by decide, by decide⟩) (by decide)⟩

/-- Concrete ceiling evaluation `⌈log 3 / log 2 * 3⌉ = 5`
(since `2^4 < 3^3 ≤ 2^5`). -/
theorem ceil_log32_eq_five : ⌈Real.log 3 / Real.log 2 * 3⌉ = (5 : ℤ) := by
  have h2 : (0 : ℝ) < Real.log 2 := Real.log_pos (by norm_num)
  rw [Int.ceil_eq_iff]
  constructor
  · push_cast
    rw [div_mul_eq_mul_div, lt_div_iff h2]
    have hl : ((5 : ℝ) - 1) * Real.log 2 = Real.log ((2 : ℝ) ^ (4 : ℕ)) := by
      rw [Real.log_pow]
      push_cast
      ring
    have hr : Real.log 3 * 3 = Real.log ((3 : ℝ) ^ (3 : ℕ)) := by
      rw [Real.log_pow]
      push_cast
      ring
    rw [hl, hr]
    exact Real.log_lt_log (by norm_num) (by norm_num)
  · push_cast
    rw [div_mul_eq_mul_div, div_le_iff h2]
    have hl : Real.log 3 * 3 = Real.log ((3 : ℝ) ^ (3 : ℕ)) := by
      rw [Real.log_pow]
      push_cast
      ring
    have hr : (5 : ℝ) * Real.log 2 = Real.log ((2 : ℝ) ^ (5 : ℕ)) := by
      rw [Real.log_pow]
      push_cast
      ring
    rw [hl, hr]
    exact Real.log_le_log (by norm_num) (by norm_num)

/-- Concrete ceiling evaluation `⌈log 3 / log (5/2) * 3⌉ = 4`
(since `(5/2)^3 < 3^3 ≤ (5/2)^4`). -/
theorem ceil_log52_eq_four : ⌈Real.log 3 / Real.log ((5 : ℝ) / 2) * 3⌉ = (4 : ℤ) := by
  have h2 : (0 : ℝ) < Real.log ((5 : ℝ) / 2) := Real.log_pos (by norm_num)
  rw [Int.ceil_eq_iff]
  constructor
  · push_cast
    rw [div_mul_eq_mul_div, lt_div_iff h2]
    have hl : ((4 : ℝ) - 1) * Real.log ((5 : ℝ) / 2)
        = Real.log (((5 : ℝ) / 2) ^ (3 : ℕ)) := by
      rw [Real.log_pow]
      push_cast
      ring
    have hr : Real.log 3 * 3 = Real.log ((3 : ℝ) ^ (3 : ℕ)) := by
      rw [Real.log_pow]
      push_cast
      ring
    rw [hl, hr]
    exact Real.log_lt_log (by norm_num) (by norm_num)
  · push_cast
    rw [div_mul_eq_mul_div, div_le_iff h2]
    have hl : Real.log 3 * 3 = Real.log ((3 : ℝ) ^ (3 : ℕ)) := by
      rw [Real.log_pow]
      push_cast
      ring
    have hr : (4 : ℝ) * Real.log ((5 : ℝ) / 2)
        = Real.log (((5 : ℝ) / 2) ^ (4 : ℕ)) := by
      rw [Real.log_pow]
      push_cast
      ring
    rw [hl, hr]
    exact Real.log_le_log (by norm_num) (by norm_num)

/-- Counterexample to Claim C1 as stated: the source divides
`(max_position - 1)` by `mid` with Rust integer division before taking the
logarithm, not with real division.  At `rel = 12`, `bucket_size = 8`,
`max_position = 11` (a far-range entry of a valid configuration) the code's
denominator is `log((11-1)/4) = log 2` giving bucket value 9, while the
spec's real-division formula has denominator `log(10/4) = log 2.5` giving 8. -/
theorem C1_integer_division_counterexample :
    make_log_bucket_position 12 8 11 = EntryResult.val 9 ∧
    log_bucket_position_spec 12 8 11 = 8 := by
  constructor
  · rw [mlbp_far_val 12 8 11 (by decide) (by decide) (by decide)]
    have h1 : mlbp_mid 8 = 4 := by decide
    have h2 : mlbp_den_arg 8 11 = 2 := by decide
    have h3 : |(12 : ℤ)| = 12 := by decide
    rw [h1, h2, h3]
    have harg : ((12 : ℤ) : ℝ) / ((4 : ℤ) : ℝ) = 3 := by norm_num
    have hden : (((2 : ℤ) : ℝ)) = 2 := by norm_num
    have hmid1 : (((4 : ℤ) : ℝ)) - 1 = 3 := by norm_num
    rw [harg, hden, hmid1, ceil_log32_eq_five]
    decide
  · unfold log_bucket_position_spec
    have h1 : mlbp_mid 8 = 4 := by decide
    rw [h1]
    have harg : (|(12 : ℤ)| : ℝ) / ((4 : ℤ) : ℝ) = 3 := by
      push_cast
      norm_num
    have hden : (((11 : ℤ) : ℝ) - 1) / ((4 : ℤ) : ℝ) = (5 : ℝ) / 2 := by
      push_cast
      norm_num
    have hmid1 : (((4 : ℤ) : ℝ)) - 1 = 3 := by norm_num
    rw [harg, hden, hmid1, ceil_log52_eq_four]
    decide

/-- Claim C1 (amended): for every far-range entry (`|rel| > bucket_size/2`)
of a configuration with `bucket_size ≥ 2` and
`max_position - 1 ≥ 2 * (bucket_size/2)`, the code computes
`log_pos = ceil( log(|rel| / mid) / log((max_position - 1) div mid) * (mid - 1) ) + mid`
with the natural logarithm, where `(max_position - 1) div mid` is Rust `i64`
integer (truncating) division — not real division — cast to float before its
logarithm; the final value is `log_pos * sign(rel)`. -/
theorem C1_far_range_formula (rel bucket_size max_position : ℤ)
    (hb : 2 ≤ bucket_size)
    (hm : 2 * mlbp_mid bucket_size ≤ max_position - 1)
    (hf : mlbp_mid bucket_size < |rel|) :
    make_log_bucket_position rel bucket_size max_position =
      EntryResult.val
        ((⌈Real.log (((|rel| : ℤ) : ℝ) / ((mlbp_mid bucket_size : ℤ) : ℝ)) /
            Real.log (((mlbp_den_arg bucket_size max_position : ℤ) : ℝ)) *
            (((mlbp_mid bucket_size : ℤ) : ℝ) - 1)⌉
          + mlbp_mid bucket_size) * Int.sign rel) :=
  mlbp_far_val rel bucket_size max_position hb
    (mlbp_den_arg_ge_two bucket_size max_position hb hm) hf

/-- Witness for the amended C1 at `rel = 12`, `bucket_size = 8`,
`max_position = 11`. -/
theorem C1_far_range_formula_witness :
    ((2 : ℤ) ≤ 8 ∧ 2 * mlbp_mid 8 ≤ (11 : ℤ) - 1 ∧ mlbp_mid 8 < |(12 : ℤ)|) ∧
    make_log_bucket_position 12 8 11 =
      EntryResult.val
        ((⌈Real.log (((|(12 : ℤ)| : ℤ) : ℝ) / ((mlbp_mid 8 : ℤ) : ℝ)) /
            Real.log (((mlbp_den_arg 8 11 : ℤ) : ℝ)) *
            (((mlbp_mid 8 : ℤ) : ℝ) - 1)⌉
          + mlbp_mid 8) * Int.sign 12) :=
  ⟨⟨by decide, by decide, by decide⟩,
    C1_far_range_formula 12 8 11 (by decide) (by decide) (by decide)⟩
